import Mathlib

/-!
Verification of `keepasxcli_wrapper/server.py` (the session-supervisor daemon)
against its natural-language specification.

Shallow embedding conventions:
* Python strings are `List Char` (sequences of code points).
* Scores computed by `sort_entry_filter_key` are modelled with exact rational
  arithmetic (`ℚ`).  Python evaluates the same formulas in IEEE-754 doubles;
  the literal formulas from the source are kept, over `ℚ`.
* The external `keepassxc-cli` process is modelled as an environment
  `Env : List (List (List Char))`: a queue of raw output-chunk blocks, one
  block consumed by each `Handler.result` call.  A chunk is one `before`
  text produced by a `pexpect.expect([crlf, delimiter])` step.
* Fallible operations return `Option`: `None` models a raised exception.
-/

namespace KpxcWrapper

/-- Whitespace predicate used to model Python `str.strip()` (ASCII core set). -/
def isSpaceChar (c : Char) : Bool :=
  c == ' ' || c == '\t' || c == '\n' || c == '\r' || c == '\x0b' || c == '\x0c'

/-- Model of Python `str.strip()`: drop whitespace from both ends. -/
def stripL (l : List Char) : List Char :=
  ((l.dropWhile isSpaceChar).reverse.dropWhile isSpaceChar).reverse

/-- Model of Python `str.lower()` (ASCII case folding via `Char.toLower`). -/
def toLowerL (l : List Char) : List Char :=
  l.map Char.toLower

/-- `pexpect.spawn.crlf`: the line terminator `"\r\n"`. -/
def crlf : List Char := ['\r', '\n']

/-- Model of Python `crlf.join(lines)`. -/
def joinCrlf (ls : List (List Char)) : List Char :=
  (List.intersperse crlf ls).flatten

/-- Model of Python `e.startswith(t)` (`startsWithL e t`: `e` starts with `t`). -/
def startsWithL : List Char → List Char → Bool
  | _, [] => true
  | [], _ :: _ => false
  | c :: cs, d :: ds => decide (c = d) && startsWithL cs ds

/-- Model of Python `t in e` (substring containment of `t` in `e`). -/
def containsSub (e t : List Char) : Bool :=
  (List.range (e.length + 1)).any fun i => startsWithL (e.drop i) t

/-! ### `difflib.SequenceMatcher` (Ratcliff/Obershelp), no-junk core

`server.py` line 44 calls `SequenceMatcher(None, term, entry).ratio()`.
The autojunk heuristic of `difflib` only activates for sequences of 200 or
more elements and can only remove candidate matches; the no-junk core is
modelled here. -/

/-- Length of the longest common prefix of two character lists. -/
def lcpLen : List Char → List Char → Nat
  | a :: as, b :: bs => if a = b then lcpLen as bs + 1 else 0
  | _, _ => 0

/-- All candidate blocks `(i, j, size)` where `size` is the length of the
maximal matching block of `a` and `b` starting at positions `i` and `j`,
enumerated in lexicographic `(i, j)` order (mirrors the search space of
`SequenceMatcher.find_longest_match`). -/
def candList (a b : List Char) : List (Nat × Nat × Nat) :=
  (List.range (a.length + 1)).flatMap fun i =>
    (List.range (b.length + 1)).map fun j => (i, j, lcpLen (a.drop i) (b.drop j))

/-- Keep the incumbent unless the challenger is strictly larger: combined with
the `(i, j)`-lexicographic enumeration this realises difflib's tie-breaking
(largest size, then smallest `i`, then smallest `j`). -/
def pickCand (best c : Nat × Nat × Nat) : Nat × Nat × Nat :=
  if best.2.2 < c.2.2 then c else best

/-- Model of `SequenceMatcher.find_longest_match` over whole sequences:
returns `(i, j, size)`, with `(0, 0, 0)` when there is no match. -/
def findLongestMatch (a b : List Char) : Nat × Nat × Nat :=
  (candList a b).foldl pickCand (0, 0, 0)

/-- Total size of all matching blocks (the `matches` count used by
`SequenceMatcher.ratio`): recursion of `get_matching_blocks` on both sides of
the longest match.  `fuel ≥ a.length + b.length` never runs out, since every
recursive call strictly decreases the combined length. -/
def matchingTotal : Nat → List Char → List Char → Nat
  | 0, _, _ => 0
  | fuel + 1, a, b =>
    let m := findLongestMatch a b
    if m.2.2 = 0 then 0
    else
      matchingTotal fuel (a.take m.1) (b.take m.2.1) + m.2.2 +
        matchingTotal fuel (a.drop (m.1 + m.2.2)) (b.drop (m.2.1 + m.2.2))

/-- The `matches` count of `SequenceMatcher(None, a, b)`. -/
def simMatches (a b : List Char) : Nat :=
  matchingTotal (a.length + b.length) a b

/-- Model of `SequenceMatcher.ratio()`:
`2.0 * matches / (len(a) + len(b))`, and `1.0` for two empty sequences. -/
def simRatio (a b : List Char) : ℚ :=
  if a.length + b.length = 0 then 1
  else 2 * (simMatches a b : ℚ) / ((a.length : ℚ) + (b.length : ℚ))

/-- Model of `sort_entry_filter_key(term)(entry)` (server.py lines 38-45):
exact match scores `1`; a proper forward match of `term` at the start of
`entry` scores `0.9 + (len(entry) ** -1) / 10`; otherwise the
`SequenceMatcher` similarity of `term` and `entry`. -/
def sortEntryFilterKey (term entry : List Char) : ℚ :=
  if term = entry then 1
  else if startsWithL entry term then 9 / 10 + ((entry.length : ℚ))⁻¹ / 10
  else simRatio term entry

/-- Stable descending insertion: `x` is placed before the first element whose
key is not larger, so earlier list elements with equal keys stay first. -/
def insertDescBy (key : List Char → ℚ) (x : List Char) : List (List Char) → List (List Char)
  | [] => [x]
  | y :: ys => if key x < key y then y :: insertDescBy key x ys else x :: y :: ys

/-- Stable sort, descending by `key`: extensionally equal to Python
`sorted(l, key=key, reverse=True)` (a stable descending sort). -/
def sortDescBy (key : List Char → ℚ) : List (List Char) → List (List Char)
  | [] => []
  | x :: xs => insertDescBy key x (sortDescBy key xs)

/-- Model of `Handler.get_filtered_entries` before the final join
(server.py lines 115-117): keep cached entries containing `term` as a
substring, then sort them descending by `sort_entry_filter_key(term)`. -/
def getFilteredEntries (entries : List (List Char)) (term : List Char) : List (List Char) :=
  sortDescBy (sortEntryFilterKey term) (entries.filter fun e => containsSub e term)

/-! ### Handler state machine (server.py lines 31-35 and 48-146) -/

/-- Protocol verb `OPEN` (server.py line 33). -/
def openVerbL : List Char := ['o', 'p', 'e', 'n']

/-- Protocol verb `QUIT` (server.py line 31). -/
def quitVerbL : List Char := ['q', 'u', 'i', 't']

/-- Protocol verb `CLOSE` (server.py line 32). -/
def closeVerbL : List Char := ['c', 'l', 'o', 's', 'e']

/-- Protocol verb `FILTERED_ENTRIES = 'locate_cached'` (server.py line 34). -/
def locateVerbL : List Char :=
  ['l', 'o', 'c', 'a', 't', 'e', '_', 'c', 'a', 'c', 'h', 'e', 'd']

/-- The `'ls'` line sent by `Handler._refresh_cache`. -/
def lsCmd : List Char := ['l', 's']

/-- The `'quit'` line sent by `Handler.quit`. -/
def quitCmd : List Char := ['q', 'u', 'i', 't']

/-- Response of `Handler.set_password` on success (server.py line 64). -/
def successMsg (dbName : List Char) : List Char :=
  "SUCCESS: Database ".data ++ dbName ++ " is now open".data

/-- Response of `Handler.set_password` on failure (server.py line 67). -/
def failMsg : List Char :=
  "Database could not be opened. Probably wrong password.".data

/-- Response of `Handler.quit` (server.py line 113). -/
def closedMsg : List Char := "Database is closed".data

/-- Response for `open` while a database is open (server.py line 128). -/
def openRejectMsg : List Char :=
  "Open is not supported. Close or quit database instead.".data

/-- Mutable state of `Handler` (server.py lines 50-55).  `processAlive` is
`true` while `self.process` is not `None`. -/
structure HState where
  processAlive : Bool
  dbName : List Char
  entries : List (List Char)
  waitingForPassword : Bool

/-- The external process, modelled as the queue of raw output blocks: each
`Handler.result` call consumes one block, a list of the `before` chunks
yielded by the `expect([crlf, delimiter])` loop until its timeout. -/
def Env : Type := List (List (List Char))

/-- Index of the last `'>'` in a line, as Python `str.rfind('>')`
(`none` models the return value `-1`). -/
def rfindGt : List Char → Option Nat
  | [] => none
  | c :: cs =>
    match rfindGt cs with
    | some i => some (i + 1)
    | none => if c = '>' then some 0 else none

/-- The `db` computed by `Handler.result` (server.py lines 86-89): the text
before the last `'>'` of the first chunk, empty if there is no chunk or the
first chunk has no `'>'` (`lines[0].rfind('>') > -1`). -/
def dbNameOf (chunks : List (List Char)) : List Char :=
  match chunks with
  | [] => []
  | first :: _ =>
    match rfindGt first with
    | some i => first.take i
    | none => []

/-- Model of `Handler.result` (server.py lines 74-91) applied to one raw
block: the database name as `dbNameOf`, and the data lines are all chunks
after the first (`lines[1:]`). -/
def resultFn (chunks : List (List Char)) : List Char × List (List Char) :=
  (dbNameOf chunks, chunks.drop 1)

/-- Model of `Handler._refresh_cache` (server.py lines 93-96): send `'ls'`,
read one block, store the prompt fragment as `dbName` and the stripped,
lower-cased data lines as `entries`.  Returns the new state, the lines sent
to the external process, and the remaining environment. -/
def refreshCache (st : HState) (env : Env) : HState × List (List Char) × Env :=
  let r := resultFn (env.headD [])
  (⟨st.processAlive, r.1, r.2.map fun e => toLowerL (stripL e), st.waitingForPassword⟩,
    [lsCmd], env.drop 1)

/-- Model of `Handler.set_password` (server.py lines 57-67): forward the
password, discard the first response block, refresh the cache, then either
report success (and leave the locked state) or quit the process and report
failure.  The `none` response models the `None` returned when the handler is
not waiting for a password. -/
def setPasswordM (st : HState) (password : List Char) (env : Env) :
    Option (List Char) × HState × List (List Char) × Env :=
  if st.waitingForPassword then
    if (refreshCache st (env.drop 1)).1.dbName ≠ [] then
      (some (successMsg (refreshCache st (env.drop 1)).1.dbName),
        ⟨(refreshCache st (env.drop 1)).1.processAlive,
          (refreshCache st (env.drop 1)).1.dbName,
          (refreshCache st (env.drop 1)).1.entries, false⟩,
        password :: (refreshCache st (env.drop 1)).2.1,
        (refreshCache st (env.drop 1)).2.2)
    else
      (some failMsg,
        ⟨false, (refreshCache st (env.drop 1)).1.dbName,
          (refreshCache st (env.drop 1)).1.entries,
          (refreshCache st (env.drop 1)).1.waitingForPassword⟩,
        password :: (refreshCache st (env.drop 1)).2.1 ++ [quitCmd],
        (refreshCache st (env.drop 1)).2.2)
  else (none, st, [], env)

/-- Model of `Handler.quit` (server.py lines 109-113): on a live process,
send `'quit'`, close and release the handle, and return the confirmation
text.  With `self.process = None` the attribute access `self.process.sendline`
raises `AttributeError`, modelled as `none`. -/
def quitM (st : HState) : Option (List Char × HState × List (List Char)) :=
  if st.processAlive then
    some (closedMsg, ⟨false, st.dbName, st.entries, st.waitingForPassword⟩, [quitCmd])
  else none

/-- Model of `Handler.call_command` (server.py lines 69-72): forward the line
verbatim, read one block, join its data lines with `crlf`. -/
def callCommandM (cmd : List Char) (env : Env) : List Char × List (List Char) × Env :=
  let r := resultFn (env.headD [])
  (joinCrlf r.2, [cmd], env.drop 1)

/-- Model of the live-process dispatch of `Handler._handler`
(server.py lines 125-135): password first while locked, then the verb tests
by `str.startswith`, else pass-through.  Returns the response (as far as one
is produced), the successor state, the lines sent, and the remaining
environment. -/
def dispatch (st : HState) (data : List Char) (env : Env) :
    Option (List Char) × HState × List (List Char) × Env :=
  if st.waitingForPassword then
    setPasswordM st data env
  else if startsWithL data openVerbL then
    (some openRejectMsg, st, [], env)
  else if startsWithL data quitVerbL || startsWithL data closeVerbL then
    match quitM st with
    | some r => (some r.1, r.2.1, r.2.2, env)
    | none => (none, st, [], env)
  else if startsWithL data locateVerbL then
    (some (joinCrlf (getFilteredEntries st.entries
        (toLowerL (stripL (data.drop locateVerbL.length))))), st, [], env)
  else
    let r := callCommandM data env
    (some r.1, st, r.2.1, r.2.2)

/-- Model of the tail of `Handler._handler` (server.py lines 143-146), run
after the response has been written: refresh the cache while the process is
alive, otherwise call `exit(os.EX_OK)` (the `Bool` result). -/
def postPhase (st : HState) (env : Env) : HState × List (List Char) × Env × Bool :=
  if st.processAlive then
    let r := refreshCache st env
    (r.1, r.2.1, r.2.2, false)
  else (st, [], env, true)

/-- Outcome of one `Handler._handler` invocation: the payload written back to
the client (`none` when none is delivered), the successor state, all lines
sent to the external process, the remaining environment, whether the daemon
process exited, and whether the write failed.  -/
structure StepResult where
  response : Option (List Char)
  state : HState
  sent : List (List Char)
  envLeft : Env
  exited : Bool
  writeError : Bool

/-- Model of one full `Handler._handler` run (server.py lines 121-146) on a
raw request line.  With a live process the dispatch response is encoded and
written, then the cache is refreshed (or the daemon exits).  With
`self.process = None`, line 139 passes a `str` (not `bytes`) to
`writer.write`, raising `TypeError`: no payload is delivered and the
remaining lines of the handler never run. -/
def handlerStep (st : HState) (raw : List Char) (env : Env) : StepResult :=
  if st.processAlive then
    let r := dispatch st (stripL raw) env
    let p := postPhase r.2.1 r.2.2.2
    ⟨r.1, p.1, r.2.2.1 ++ p.2.1, p.2.2.1, p.2.2.2, false⟩
  else
    ⟨none, st, [], env, false, true⟩

/-! ### Helper lemmas -/

/-- A match of `t` at the start of `e` bounds the length of `t`. -/
theorem startsWithL_le_length : ∀ (e t : List Char), startsWithL e t = true → t.length ≤ e.length
  | _, [], _ => Nat.zero_le _
  | [], _ :: _, h => by simp [startsWithL] at h
  | c :: cs, d :: ds, h => by
    simp only [startsWithL, Bool.and_eq_true] at h
    exact Nat.succ_le_succ (startsWithL_le_length cs ds h.2)

/-- A proper match of `t` at the start of `e` is strictly shorter than `e`. -/
theorem startsWithL_lt_length : ∀ (e t : List Char), startsWithL e t = true → e ≠ t →
    t.length < e.length
  | e, [], _, hne => List.length_pos.mpr hne
  | [], _ :: _, h, _ => by simp [startsWithL] at h
  | c :: cs, d :: ds, h, hne => by
    simp only [startsWithL, Bool.and_eq_true, decide_eq_true_eq] at h
    have hcs : cs ≠ ds := fun he => hne (by rw [h.1, he])
    exact Nat.succ_lt_succ (startsWithL_lt_length cs ds h.2 hcs)

/-- Any list starts with its own initial segment. -/
theorem startsWithL_append_self : ∀ (t rest : List Char), startsWithL (t ++ rest) t = true
  | [], rest => by cases rest <;> simp [startsWithL]
  | c :: cs, rest => by simp [startsWithL, startsWithL_append_self cs rest]

/-- Distinct head characters refute a forward match. -/
theorem startsWithL_cons_ne (c d : Char) (cs ds : List Char) (h : c ≠ d) :
    startsWithL (c :: cs) (d :: ds) = false := by
  simp [startsWithL, h]

/-- `insertDescBy` only rearranges: membership is preserved. -/
theorem mem_insertDescBy (key : List Char → ℚ) (x a : List Char) :
    ∀ l : List (List Char), a ∈ insertDescBy key x l ↔ a = x ∨ a ∈ l
  | [] => by simp [insertDescBy]
  | y :: ys => by
    simp only [insertDescBy]
    split
    · simp only [List.mem_cons, mem_insertDescBy key x a ys]
      tauto
    · simp only [List.mem_cons]

/-- `sortDescBy` is a permutation at the level of membership. -/
theorem mem_sortDescBy (key : List Char → ℚ) (a : List Char) :
    ∀ l : List (List Char), a ∈ sortDescBy key l ↔ a ∈ l
  | [] => Iff.rfl
  | x :: xs => by
    simp only [sortDescBy, mem_insertDescBy, mem_sortDescBy key a xs, List.mem_cons]

/-- The longest-common-prefix length is bounded by the first list. -/
theorem lcpLen_le_left : ∀ (a b : List Char), lcpLen a b ≤ a.length
  | [], b => by cases b <;> simp [lcpLen]
  | a :: as, [] => by simp [lcpLen]
  | a :: as, b :: bs => by
    by_cases h : a = b <;> simp [lcpLen, h, Nat.succ_le_succ (lcpLen_le_left as bs)]

/-- The longest-common-prefix length is bounded by the second list. -/
theorem lcpLen_le_right : ∀ (a b : List Char), lcpLen a b ≤ b.length
  | [], b => by cases b <;> simp [lcpLen]
  | a :: as, [] => by simp [lcpLen]
  | a :: as, b :: bs => by
    by_cases h : a = b <;> simp [lcpLen, h, Nat.succ_le_succ (lcpLen_le_right as bs)]

/-- The two lists agree on their common prefix. -/
theorem lcpLen_take_eq : ∀ (a b : List Char), a.take (lcpLen a b) = b.take (lcpLen a b)
  | [], b => by cases b <;> simp [lcpLen]
  | a :: as, [] => by simp [lcpLen]
  | a :: as, b :: bs => by
    by_cases h : a = b
    · simp [lcpLen, h, lcpLen_take_eq as bs]
    · simp [lcpLen, h]

/-- Any property holding for the seed and all list elements holds for the
`pickCand` fold result. -/
theorem foldl_pickCand_prop (P : Nat × Nat × Nat → Prop) :
    ∀ (l : List (Nat × Nat × Nat)) (init : Nat × Nat × Nat),
      P init → (∀ c ∈ l, P c) → P (l.foldl pickCand init)
  | [], _, h0, _ => h0
  | c :: cs, init, h0, hl => by
    simp only [List.foldl_cons]
    apply foldl_pickCand_prop P cs
    · unfold pickCand
      split
      · exact hl c (List.mem_cons_self c cs)
      · exact h0
    · exact fun d hd => hl d (List.mem_cons_of_mem c hd)

/-- Every enumerated candidate carries the longest-common-prefix length of
its own pair of suffixes. -/
theorem candList_prop (a b : List Char) :
    ∀ c ∈ candList a b, c.2.2 = lcpLen (a.drop c.1) (b.drop c.2.1) := by
  intro c hc
  simp only [candList, List.mem_flatMap, List.mem_map, List.mem_range] at hc
  obtain ⟨i, _, j, _, rfl⟩ := hc
  rfl

/-- The block size reported by `findLongestMatch` is zero or the
longest-common-prefix length at its reported positions. -/
theorem flm_prop (a b : List Char) :
    (findLongestMatch a b).2.2 = 0 ∨
    (findLongestMatch a b).2.2 =
      lcpLen (a.drop (findLongestMatch a b).1) (b.drop (findLongestMatch a b).2.1) := by
  unfold findLongestMatch
  apply foldl_pickCand_prop
    (fun x => x.2.2 = 0 ∨ x.2.2 = lcpLen (a.drop x.1) (b.drop x.2.1))
  · exact Or.inl rfl
  · exact fun c hc => Or.inr (candList_prop a b c hc)

/-- Unfolding equation of `matchingTotal` at positive fuel. -/
theorem matchingTotal_succ (fuel : Nat) (a b : List Char) :
    matchingTotal (fuel + 1) a b =
      if (findLongestMatch a b).2.2 = 0 then 0
      else
        matchingTotal fuel (a.take (findLongestMatch a b).1)
            (b.take (findLongestMatch a b).2.1) +
          (findLongestMatch a b).2.2 +
          matchingTotal fuel
            (a.drop ((findLongestMatch a b).1 + (findLongestMatch a b).2.2))
            (b.drop ((findLongestMatch a b).2.1 + (findLongestMatch a b).2.2)) := rfl

/-- The blocks counted by `matchingTotal` assemble into one common
subsequence of both inputs: the match count is a common-subsequence length. -/
theorem matchingTotal_exists_sublist :
    ∀ (fuel : Nat) (a b : List Char), ∃ s : List Char,
      s.Sublist a ∧ s.Sublist b ∧ s.length = matchingTotal fuel a b := by
  intro fuel
  induction fuel with
  | zero =>
    intro a b
    exact ⟨[], List.nil_sublist a, List.nil_sublist b, rfl⟩
  | succ n ih =>
    intro a b
    by_cases hk : (findLongestMatch a b).2.2 = 0
    · refine ⟨[], List.nil_sublist a, List.nil_sublist b, ?_⟩
      rw [matchingTotal_succ, if_pos hk]
      rfl
    · have hlcp : (findLongestMatch a b).2.2 =
          lcpLen (a.drop (findLongestMatch a b).1) (b.drop (findLongestMatch a b).2.1) :=
        (flm_prop a b).resolve_left hk
      obtain ⟨s1, h1a, h1b, h1len⟩ :=
        ih (a.take (findLongestMatch a b).1) (b.take (findLongestMatch a b).2.1)
      obtain ⟨s2, h2a, h2b, h2len⟩ :=
        ih (a.drop ((findLongestMatch a b).1 + (findLongestMatch a b).2.2))
          (b.drop ((findLongestMatch a b).2.1 + (findLongestMatch a b).2.2))
      have hkla : (findLongestMatch a b).2.2 ≤ (a.drop (findLongestMatch a b).1).length := by
        rw [hlcp]; exact lcpLen_le_left _ _
      have htake : (a.drop (findLongestMatch a b).1).take (findLongestMatch a b).2.2 =
          (b.drop (findLongestMatch a b).2.1).take (findLongestMatch a b).2.2 := by
        rw [hlcp]; exact lcpLen_take_eq _ _
      have hsa : a = a.take (findLongestMatch a b).1 ++
          ((a.drop (findLongestMatch a b).1).take (findLongestMatch a b).2.2 ++
            a.drop ((findLongestMatch a b).1 + (findLongestMatch a b).2.2)) := by
        rw [← List.drop_drop, List.take_append_drop, List.take_append_drop]
      have hsb : b = b.take (findLongestMatch a b).2.1 ++
          ((b.drop (findLongestMatch a b).2.1).take (findLongestMatch a b).2.2 ++
            b.drop ((findLongestMatch a b).2.1 + (findLongestMatch a b).2.2)) := by
        rw [← List.drop_drop, List.take_append_drop, List.take_append_drop]
      refine ⟨s1 ++ ((a.drop (findLongestMatch a b).1).take (findLongestMatch a b).2.2 ++ s2),
        ?_, ?_, ?_⟩
      · conv_rhs => rw [hsa]
        exact List.Sublist.append h1a (List.Sublist.append (List.Sublist.refl _) h2a)
      · conv_rhs => rw [hsb]
        refine List.Sublist.append h1b ?_
        rw [htake]
        exact List.Sublist.append (List.Sublist.refl _) h2b
      · have hblock :
            ((a.drop (findLongestMatch a b).1).take (findLongestMatch a b).2.2).length =
              (findLongestMatch a b).2.2 := by
          rw [List.length_take]
          exact Nat.min_eq_left hkla
        rw [matchingTotal_succ, if_neg hk]
        simp only [List.length_append, hblock, h1len, h2len]
        omega

/-- The match count never exceeds the length of the first sequence. -/
theorem simMatches_le_left (a b : List Char) : simMatches a b ≤ a.length := by
  obtain ⟨s, hsa, _, hlen⟩ := matchingTotal_exists_sublist (a.length + b.length) a b
  calc simMatches a b = s.length := hlen.symm
    _ ≤ a.length := hsa.length_le

/-- The match count never exceeds the length of the second sequence. -/
theorem simMatches_le_right (a b : List Char) : simMatches a b ≤ b.length := by
  obtain ⟨s, _, hsb, hlen⟩ := matchingTotal_exists_sublist (a.length + b.length) a b
  calc simMatches a b = s.length := hlen.symm
    _ ≤ b.length := hsb.length_le

/-- Distinct sequences have similarity strictly below `1`. -/
theorem simRatio_lt_one (a b : List Char) (h : a ≠ b) : simRatio a b < 1 := by
  have hS : a.length + b.length ≠ 0 := by
    intro h0
    have ha : a = [] := List.length_eq_zero.mp (by omega)
    have hb : b = [] := List.length_eq_zero.mp (by omega)
    exact h (ha.trans hb.symm)
  have h2 : 2 * simMatches a b < a.length + b.length := by
    by_cases hl : a.length = b.length
    · have hlt : simMatches a b < a.length := by
        rcases Nat.lt_or_ge (simMatches a b) a.length with hlt | hge
        · exact hlt
        · exfalso
          obtain ⟨s, hsa, hsb, hlen⟩ := matchingTotal_exists_sublist (a.length + b.length) a b
          have hsl : s.length = a.length :=
            le_antisymm (hlen ▸ simMatches_le_left a b) (hlen ▸ hge)
          have hA : s = a := hsa.eq_of_length hsl
          have hB : s = b := hsb.eq_of_length (by omega)
          exact h (hA.symm.trans hB)
      omega
    · have hle1 := simMatches_le_left a b
      have hle2 := simMatches_le_right a b
      omega
  rw [simRatio, if_neg hS, div_lt_one (by exact_mod_cast Nat.pos_of_ne_zero hS)]
  exact_mod_cast h2

/-- For a nonempty term, any distinct entry scores strictly below `1`. -/
theorem score_lt_one (term other : List Char) (h1 : term ≠ []) (h2 : other ≠ term) :
    sortEntryFilterKey term other < 1 := by
  unfold sortEntryFilterKey
  rw [if_neg fun he => h2 he.symm]
  by_cases hp : startsWithL other term = true
  · rw [if_pos hp]
    have hlt : term.length < other.length := startsWithL_lt_length other term hp h2
    have h1' : 1 ≤ term.length := List.length_pos.mpr h1
    have hQ : (2 : ℚ) ≤ (other.length : ℚ) := by exact_mod_cast by omega
    have hinv : ((other.length : ℚ))⁻¹ ≤ (2 : ℚ)⁻¹ :=
      inv_anti₀ (by norm_num) hQ
    have : ((2 : ℚ))⁻¹ = 1 / 2 := by norm_num
    linarith
  · rw [if_neg hp]
    exact simRatio_lt_one term other fun he => h2 he.symm

/-- `rfindGt` returns `none` exactly when there is no `'>'`. -/
theorem rfindGt_eq_none_iff : ∀ l : List Char, rfindGt l = none ↔ '>' ∉ l
  | [] => by simp [rfindGt]
  | c :: cs => by
    simp only [rfindGt]
    cases h : rfindGt cs with
    | some i =>
      have hmem : '>' ∈ cs := by
        by_contra hc
        rw [(rfindGt_eq_none_iff cs).mpr hc] at h
        cases h
      simp [List.mem_cons, hmem]
    | none =>
      have hnot : '>' ∉ cs := (rfindGt_eq_none_iff cs).mp h
      by_cases hc : c = '>'
      · simp [hc]
      · simp [hc, hnot, Ne.symm hc]

/-- `rfindGt` locates the last `'>'`: the list splits there and the suffix
holds no further `'>'`. -/
theorem rfindGt_some_split :
    ∀ (l : List Char) (i : Nat), rfindGt l = some i →
      l = l.take i ++ '>' :: l.drop (i + 1) ∧ '>' ∉ l.drop (i + 1)
  | [], i, h => by simp [rfindGt] at h
  | c :: cs, i, h => by
    simp only [rfindGt] at h
    cases h' : rfindGt cs with
    | some j =>
      rw [h'] at h
      obtain rfl : j + 1 = i := by
        cases h
        rfl
      obtain ⟨hdec, hnot⟩ := rfindGt_some_split cs j h'
      constructor
      · show c :: cs = (c :: cs).take (j + 1) ++ '>' :: (c :: cs).drop (j + 1 + 1)
        simp only [List.take_succ_cons, List.drop_succ_cons, List.cons_append]
        exact congrArg (c :: ·) hdec
      · simpa using hnot
    | none =>
      rw [h'] at h
      by_cases hc : c = '>'
      · rw [if_pos hc] at h
        obtain rfl : (0 : Nat) = i := by
          cases h
          rfl
        subst hc
        refine ⟨by simp, ?_⟩
        simpa using (rfindGt_eq_none_iff cs).mp h'
      · rw [if_neg hc] at h
        cases h

/-- Dispatch of a `locate_cached`-led request while open: served from the
cached entries, nothing sent, environment untouched. -/
theorem dispatch_locate (st : HState) (rest : List Char) (env : Env)
    (hw : st.waitingForPassword = false) :
    dispatch st (locateVerbL ++ rest) env =
      (some (joinCrlf (getFilteredEntries st.entries (toLowerL (stripL rest)))), st, [], env) := by
  have h1 : startsWithL (locateVerbL ++ rest) openVerbL = false :=
    startsWithL_cons_ne _ _ _ _ (by decide)
  have h2 : startsWithL (locateVerbL ++ rest) quitVerbL = false :=
    startsWithL_cons_ne _ _ _ _ (by decide)
  have h3 : startsWithL (locateVerbL ++ rest) closeVerbL = false :=
    startsWithL_cons_ne _ _ _ _ (by decide)
  have h4 : startsWithL (locateVerbL ++ rest) locateVerbL = true :=
    startsWithL_append_self _ _
  simp only [dispatch, hw, Bool.false_eq_true, if_false, h1, h2, h3, h4, Bool.or_self,
    if_true, List.drop_left]

/-- With a live process, one handler run is the dispatch followed by the
post-response phase, and the write of the encoded response succeeds. -/
theorem handlerStep_alive (st : HState) (raw : List Char) (env : Env)
    (ha : st.processAlive = true) :
    handlerStep st raw env =
      ⟨(dispatch st (stripL raw) env).1,
        (postPhase (dispatch st (stripL raw) env).2.1 (dispatch st (stripL raw) env).2.2.2).1,
        (dispatch st (stripL raw) env).2.2.1 ++
          (postPhase (dispatch st (stripL raw) env).2.1
            (dispatch st (stripL raw) env).2.2.2).2.1,
        (postPhase (dispatch st (stripL raw) env).2.1
          (dispatch st (stripL raw) env).2.2.2).2.2.1,
        (postPhase (dispatch st (stripL raw) env).2.1
          (dispatch st (stripL raw) env).2.2.2).2.2.2,
        false⟩ := by
  unfold handlerStep
  rw [if_pos ha]

/-- With a live process, the post-response phase is exactly one cache
refresh: it sends `'ls'` and consumes one environment block. -/
theorem postPhase_alive (st : HState) (env : Env) (ha : st.processAlive = true) :
    postPhase st env = ((refreshCache st env).1, [lsCmd], env.drop 1, false) := by
  unfold postPhase
  rw [if_pos ha]
  rfl

/-- Dispatch of an `open`-led request while open: rejected with the fixed
message, nothing sent. -/
theorem dispatch_open (st : HState) (rest : List Char) (env : Env)
    (hw : st.waitingForPassword = false) :
    dispatch st (openVerbL ++ rest) env = (some openRejectMsg, st, [], env) := by
  have h1 : startsWithL (openVerbL ++ rest) openVerbL = true := startsWithL_append_self _ _
  simp only [dispatch, hw, Bool.false_eq_true, if_false, h1, if_true]

/-- Dispatch of a `quit`-led request while open and alive: the process is
closed, `'quit'` is sent, the confirmation is returned. -/
theorem dispatch_quit (st : HState) (rest : List Char) (env : Env)
    (ha : st.processAlive = true) (hw : st.waitingForPassword = false) :
    dispatch st (quitVerbL ++ rest) env =
      (some closedMsg, ⟨false, st.dbName, st.entries, st.waitingForPassword⟩,
        [quitCmd], env) := by
  have h1 : startsWithL (quitVerbL ++ rest) openVerbL = false :=
    startsWithL_cons_ne _ _ _ _ (by decide)
  have h2 : startsWithL (quitVerbL ++ rest) quitVerbL = true := startsWithL_append_self _ _
  simp only [dispatch, hw, Bool.false_eq_true, if_false, h1, h2, Bool.true_or, if_true,
    quitM, ha, if_true]

/-- Dispatch of a `close`-led request while open and alive: same behaviour
as `quit`. -/
theorem dispatch_close (st : HState) (rest : List Char) (env : Env)
    (ha : st.processAlive = true) (hw : st.waitingForPassword = false) :
    dispatch st (closeVerbL ++ rest) env =
      (some closedMsg, ⟨false, st.dbName, st.entries, st.waitingForPassword⟩,
        [quitCmd], env) := by
  have h1 : startsWithL (closeVerbL ++ rest) openVerbL = false :=
    startsWithL_cons_ne _ _ _ _ (by decide)
  have h2 : startsWithL (closeVerbL ++ rest) quitVerbL = false :=
    startsWithL_cons_ne _ _ _ _ (by decide)
  have h3 : startsWithL (closeVerbL ++ rest) closeVerbL = true := startsWithL_append_self _ _
  simp only [dispatch, hw, Bool.false_eq_true, if_false, h1, h2, h3, Bool.false_or, if_true,
    quitM, ha]

/-! ### Claims -/

/-- C1: for every cached entry set and every term, the list returned by the
locate/filter operation contains only entries that contain the term as a
substring; no entry lacking the term as a substring is ever returned. -/
theorem c1_locate_filter_substring_sound (entries : List (List Char)) (term e : List Char)
    (h : e ∈ getFilteredEntries entries term) : containsSub e term = true := by
  unfold getFilteredEntries at h
  exact (List.mem_filter.mp ((mem_sortDescBy _ _ _).mp h)).2

/-- Witness for C1 at a concrete cache and term. -/
theorem c1_locate_filter_substring_sound_witness :
    containsSub "github".data "git".data = true :=
  c1_locate_filter_substring_sound ["github".data, "google".data] "git".data "github".data
    (by decide)

/-- C2 counterexample: with cached entries [github, gitlab, google] and term
`git`, the entry `google` is NOT in the result of `locate_cached git`: the
claim that google appears in the result (ranked last) is false on the code,
which filters by substring containment before scoring. -/
theorem c2_counterexample_google_excluded :
    "google".data ∉
      getFilteredEntries ["github".data, "gitlab".data, "google".data] "git".data := by
  intro h
  unfold getFilteredEntries at h
  exact absurd (List.mem_filter.mp ((mem_sortDescBy _ _ _).mp h)).2 (by decide)

/-- C2 amended: after a successful open with cached entries
[github, gitlab, google], `locate_cached git` returns exactly
[github, gitlab] — github and gitlab ranked by the prefix-score formula with
the tie kept in cache order — while google is excluded by the substring
filter (it does not contain `git`), not ranked last. -/
theorem c2_amended_locate_cached_git :
    getFilteredEntries ["github".data, "gitlab".data, "google".data] "git".data
      = ["github".data, "gitlab".data] := by
  have h1 : sortEntryFilterKey "git".data "github".data = 11 / 12 := by
    unfold sortEntryFilterKey
    rw [if_neg (by decide), if_pos (by decide)]
    rw [show (("github".data.length : ℚ)) = 6 by
      norm_num [show "github".data.length = 6 from rfl]]
    norm_num
  have h2 : sortEntryFilterKey "git".data "gitlab".data = 11 / 12 := by
    unfold sortEntryFilterKey
    rw [if_neg (by decide), if_pos (by decide)]
    rw [show (("gitlab".data.length : ℚ)) = 6 by
      norm_num [show "gitlab".data.length = 6 from rfl]]
    norm_num
  unfold getFilteredEntries
  rw [show (["github".data, "gitlab".data, "google".data].filter fun e =>
      containsSub e "git".data) = ["github".data, "gitlab".data] from by decide]
  have h3 : sortDescBy (sortEntryFilterKey "git".data) ["gitlab".data] = ["gitlab".data] := rfl
  unfold sortDescBy
  rw [h3]
  unfold insertDescBy
  rw [h1, h2, if_neg (lt_irrefl _)]

/-- C3 counterexample: for the empty term and the single-character entry
`a`, the prefix branch of the score evaluates (in exact arithmetic) to
`0.9 + 1/(10*1) = 1`, equal to the self-score `1`, so the claimed strict
inequality `score(term, term) > score(term, other)` fails. -/
theorem c3_counterexample_empty_term :
    ([] : List Char) ≠ ['a'] ∧
    sortEntryFilterKey [] [] = 1 ∧
    sortEntryFilterKey [] ['a'] = 1 ∧
    ¬ sortEntryFilterKey [] ['a'] < sortEntryFilterKey [] [] := by
  have e1 : sortEntryFilterKey [] [] = 1 := by
    unfold sortEntryFilterKey
    rw [if_pos rfl]
  have e2 : sortEntryFilterKey [] ['a'] = 1 := by
    unfold sortEntryFilterKey
    rw [if_neg (by decide), if_pos (by decide)]
    norm_num [show (['a'] : List Char).length = 1 from rfl]
  exact ⟨by decide, e1, e2, by rw [e1, e2]; exact lt_irrefl 1⟩

/-- C3 amended: the self-score is `1.0`, and for every NONEMPTY term the
score of any distinct entry is strictly below `1.0`; for the empty term the
exact-arithmetic prefix formula reaches `1.0` on single-character entries. -/
theorem c3_amended_exact_match_strict (term other : List Char)
    (h1 : term ≠ []) (h2 : other ≠ term) :
    sortEntryFilterKey term term = 1 ∧ sortEntryFilterKey term other < 1 :=
  ⟨by unfold sortEntryFilterKey; rw [if_pos rfl], score_lt_one term other h1 h2⟩

/-- Witness for the amended C3 at a concrete term and entry. -/
theorem c3_amended_exact_match_strict_witness :
    sortEntryFilterKey "git".data "git".data = 1 ∧
    sortEntryFilterKey "git".data "gith".data < 1 :=
  c3_amended_exact_match_strict "git".data "gith".data (by decide) (by decide)

/-- C4: among two entries properly extending the term, the shorter entry
gets the strictly higher score: `0.9 + 1/(10*len)` is strictly decreasing
in the entry length. -/
theorem c4_shorter_entry_scores_higher (term e1 e2 : List Char)
    (h1 : startsWithL e1 term = true) (h2 : startsWithL e2 term = true)
    (hn1 : e1 ≠ term) (hn2 : e2 ≠ term) (hlen : e1.length < e2.length) :
    sortEntryFilterKey term e2 < sortEntryFilterKey term e1 := by
  unfold sortEntryFilterKey
  rw [if_neg fun he => hn2 he.symm, if_pos h2, if_neg fun he => hn1 he.symm, if_pos h1]
  have hp1 : 0 < e1.length :=
    Nat.lt_of_le_of_lt (Nat.zero_le _) (startsWithL_lt_length e1 term h1 hn1)
  have q1 : (0 : ℚ) < (e1.length : ℚ) := by exact_mod_cast hp1
  have qlt : (e1.length : ℚ) < (e2.length : ℚ) := by exact_mod_cast hlen
  have hinv : ((e2.length : ℚ))⁻¹ < ((e1.length : ℚ))⁻¹ := by
    exact inv_strictAnti₀ q1 qlt
  linarith

/-- Witness for C4 at concrete entries of lengths 4 and 6. -/
theorem c4_shorter_entry_scores_higher_witness :
    sortEntryFilterKey "git".data "gitlab".data < sortEntryFilterKey "git".data "gith".data :=
  c4_shorter_entry_scores_higher "git".data "gith".data "gitlab".data (by decide) (by decide)
    (by decide) (by decide) (by decide)

/-- C5: while the handler is locked (awaiting the password) and the process
is alive, every request text — including protocol verbs — is processed as
the authentication password: the dispatch equals the password path and the
first line sent to the external process is the request text itself. -/
theorem c5_locked_first_request_is_password (st : HState) (raw : List Char) (env : Env)
    (ha : st.processAlive = true) (hw : st.waitingForPassword = true) :
    dispatch st (stripL raw) env = setPasswordM st (stripL raw) env ∧
    (handlerStep st raw env).response = (setPasswordM st (stripL raw) env).1 ∧
    (handlerStep st raw env).sent.head? = some (stripL raw) := by
  have hd : dispatch st (stripL raw) env = setPasswordM st (stripL raw) env := by
    unfold dispatch
    rw [if_pos hw]
  refine ⟨hd, ?_, ?_⟩
  · rw [handlerStep_alive st raw env ha, hd]
  · rw [handlerStep_alive st raw env ha, hd]
    show ((setPasswordM st (stripL raw) env).2.2.1 ++ _).head? = some (stripL raw)
    unfold setPasswordM
    rw [if_pos hw]
    by_cases hdb : (refreshCache st (env.drop 1)).1.dbName ≠ []
    · rw [if_pos hdb]
      rfl
    · rw [if_neg hdb]
      rfl

/-- Witness for C5: the verb `quit`, sent while locked, is forwarded to the
external process as the password. -/
theorem c5_locked_first_request_is_password_witness :
    dispatch ⟨true, [], [], true⟩ (stripL "quit".data) [] =
      setPasswordM ⟨true, [], [], true⟩ (stripL "quit".data) [] ∧
    (handlerStep ⟨true, [], [], true⟩ "quit".data []).response =
      (setPasswordM ⟨true, [], [], true⟩ (stripL "quit".data) []).1 ∧
    (handlerStep ⟨true, [], [], true⟩ "quit".data []).sent.head? =
      some (stripL "quit".data) :=
  c5_locked_first_request_is_password ⟨true, [], [], true⟩ "quit".data [] rfl rfl

/-- C6 counterexample: handling `locate_cached git` in the open state does
send a line to the external process (the unconditional post-response cache
refresh sends `ls`), refuting "nothing is sent to the external process as
part of handling that request". -/
theorem c6_counterexample_locate_sends_ls :
    (handlerStep ⟨true, [], [], false⟩ "locate_cached git".data [[]]).sent ≠ [] := by
  decide

/-- C6 amended: while open, the RESPONSE to `locate_cached` is computed
purely from the entry cache and matcher (its value mentions only the cached
entries and the term, not the environment) and the dispatch itself sends
nothing; however the handler then unconditionally refreshes the cache, so
exactly the line `ls` is sent after the response is written. -/
theorem c6_amended_locate_served_from_cache (st : HState) (raw rest : List Char) (env : Env)
    (ha : st.processAlive = true) (hw : st.waitingForPassword = false)
    (hs : stripL raw = locateVerbL ++ rest) :
    dispatch st (stripL raw) env =
      (some (joinCrlf (getFilteredEntries st.entries (toLowerL (stripL rest)))),
        st, [], env) ∧
    (handlerStep st raw env).response =
      some (joinCrlf (getFilteredEntries st.entries (toLowerL (stripL rest)))) ∧
    (handlerStep st raw env).sent = [lsCmd] := by
  have hdis : dispatch st (stripL raw) env =
      (some (joinCrlf (getFilteredEntries st.entries (toLowerL (stripL rest)))),
        st, [], env) := by
    rw [hs]
    exact dispatch_locate st rest env hw
  refine ⟨hdis, ?_, ?_⟩
  · rw [handlerStep_alive st raw env ha, hdis]
  · rw [handlerStep_alive st raw env ha, hdis]
    show [] ++ (postPhase st env).2.1 = [lsCmd]
    rw [postPhase_alive st env ha]
    rfl

/-- Witness for the amended C6 at a concrete open state. -/
theorem c6_amended_locate_served_from_cache_witness :
    dispatch ⟨true, [], [], false⟩ (stripL "locate_cached git".data) [] =
      (some (joinCrlf (getFilteredEntries ([] : List (List Char))
        (toLowerL (stripL " git".data)))), ⟨true, [], [], false⟩, [], []) ∧
    (handlerStep ⟨true, [], [], false⟩ "locate_cached git".data []).response =
      some (joinCrlf (getFilteredEntries ([] : List (List Char))
        (toLowerL (stripL " git".data)))) ∧
    (handlerStep ⟨true, [], [], false⟩ "locate_cached git".data []).sent = [lsCmd] :=
  c6_amended_locate_served_from_cache ⟨true, [], [], false⟩ "locate_cached git".data
    " git".data [] rfl rfl (by decide)

/-- C7 counterexample: invoking quit on an already-closed channel is NOT a
no-op: with `self.process = None` the attribute access in
`self.process.sendline('quit')` raises (modelled as `none`), refuting
idempotence "for every channel state". -/
theorem c7_counterexample_quit_on_closed :
    quitM ⟨false, [], [], false⟩ = none := rfl

/-- C7 amended: quit on a live channel sends `quit`, releases the handle and
returns the confirmation; invoking quit again on the resulting closed state
raises an error (attribute access on `None`) instead of being a no-op — the
dispatcher avoids this by guarding every quit call with a liveness check. -/
theorem c7_amended_quit_once (st : HState) (ha : st.processAlive = true) :
    quitM st =
      some (closedMsg, ⟨false, st.dbName, st.entries, st.waitingForPassword⟩, [quitCmd]) ∧
    quitM ⟨false, st.dbName, st.entries, st.waitingForPassword⟩ = none := by
  constructor
  · unfold quitM
    rw [if_pos ha]
  · rfl

/-- Witness for the amended C7 at a concrete open state. -/
theorem c7_amended_quit_once_witness :
    quitM ⟨true, "vault".data, [], false⟩ =
      some (closedMsg, ⟨false, "vault".data, [], false⟩, [quitCmd]) ∧
    quitM ⟨false, "vault".data, [], false⟩ = none :=
  c7_amended_quit_once ⟨true, "vault".data, [], false⟩ rfl

/-- C8: a wrong password while locked yields exactly the failure response
and releases the process — but the daemon then exits
(`exit(os.EX_OK)`), and a request reaching a closed handler hits
`writer.write` with an unencoded `str`, raising `TypeError`, so no
"Database is closed." payload is ever delivered to subsequent requests. -/
theorem c8_wrong_password_divergence :
    (handlerStep ⟨true, [], [], true⟩ "hunter2".data [[], []]).response = some failMsg ∧
    (handlerStep ⟨true, [], [], true⟩ "hunter2".data [[], []]).state.processAlive = false ∧
    (handlerStep ⟨true, [], [], true⟩ "hunter2".data [[], []]).exited = true ∧
    (handlerStep (handlerStep ⟨true, [], [], true⟩ "hunter2".data [[], []]).state
      "get github".data []).response = none ∧
    (handlerStep (handlerStep ⟨true, [], [], true⟩ "hunter2".data [[], []]).state
      "get github".data []).writeError = true :=
  ⟨rfl, rfl, rfl, rfl, rfl⟩

/-- C9: for every block read by the response reader, the lines component is
exactly the chunks after the first (the output lines following the echoed
prompt line), and the prompt fragment is the text preceding the last `'>'`
of the first line, or empty when there is no output or no `'>'`. -/
theorem c9_readblock_lines_and_name (hd : List Char) (tl : List (List Char)) :
    (resultFn (hd :: tl)).2 = tl ∧
    resultFn [] = ([], []) ∧
    ('>' ∈ hd → ∃ pre suf, hd = pre ++ '>' :: suf ∧ '>' ∉ suf ∧
      (resultFn (hd :: tl)).1 = pre) ∧
    ('>' ∉ hd → (resultFn (hd :: tl)).1 = []) := by
  refine ⟨rfl, rfl, ?_, ?_⟩
  · intro hmem
    cases h : rfindGt hd with
    | none => exact absurd hmem (by simpa using (rfindGt_eq_none_iff hd).mp h)
    | some i =>
      obtain ⟨hdec, hnot⟩ := rfindGt_some_split hd i h
      refine ⟨hd.take i, hd.drop (i + 1), hdec, hnot, ?_⟩
      show (match rfindGt hd with
        | some j => hd.take j
        | none => ([] : List Char)) = hd.take i
      rw [h]
  · intro hmem
    show (match rfindGt hd with
      | some j => hd.take j
      | none => ([] : List Char)) = []
    rw [(rfindGt_eq_none_iff hd).mpr hmem]

/-- Witness for C9 at a concrete block. -/
theorem c9_readblock_lines_and_name_witness :
    (resultFn ("vault> ls".data :: ["github".data])).2 = ["github".data] ∧
    resultFn [] = ([], []) ∧
    ('>' ∈ "vault> ls".data → ∃ pre suf, "vault> ls".data = pre ++ '>' :: suf ∧
      '>' ∉ suf ∧ (resultFn ("vault> ls".data :: ["github".data])).1 = pre) ∧
    ('>' ∉ "vault> ls".data → (resultFn ("vault> ls".data :: ["github".data])).1 = []) :=
  c9_readblock_lines_and_name "vault> ls".data ["github".data]

/-- C10: verb recognition is by `str.startswith`, not exact match: while
open, any request text extending `open`, `quit`, `close` or `locate_cached`
is handled as that control verb (rejection message, session close, or cache
lookup) instead of being forwarded verbatim to the external tool. -/
theorem c10_verb_dispatch (st : HState) (rest : List Char) (env : Env)
    (ha : st.processAlive = true) (hw : st.waitingForPassword = false) :
    dispatch st (openVerbL ++ rest) env = (some openRejectMsg, st, [], env) ∧
    dispatch st (quitVerbL ++ rest) env =
      (some closedMsg, ⟨false, st.dbName, st.entries, st.waitingForPassword⟩,
        [quitCmd], env) ∧
    dispatch st (closeVerbL ++ rest) env =
      (some closedMsg, ⟨false, st.dbName, st.entries, st.waitingForPassword⟩,
        [quitCmd], env) ∧
    dispatch st (locateVerbL ++ rest) env =
      (some (joinCrlf (getFilteredEntries st.entries (toLowerL (stripL rest)))),
        st, [], env) :=
  ⟨dispatch_open st rest env hw, dispatch_quit st rest env ha hw,
    dispatch_close st rest env ha hw, dispatch_locate st rest env hw⟩

/-- Witness for C10: `openssl`, `quite x`, `closet` and `locate_cached db`
are all treated as their verbs at a concrete open state. -/
theorem c10_verb_dispatch_witness :
    dispatch ⟨true, [], [], false⟩ (openVerbL ++ "ssl".data) [] =
      (some openRejectMsg, ⟨true, [], [], false⟩, [], []) ∧
    dispatch ⟨true, [], [], false⟩ (quitVerbL ++ "ssl".data) [] =
      (some closedMsg, ⟨false, [], [], false⟩, [quitCmd], []) ∧
    dispatch ⟨true, [], [], false⟩ (closeVerbL ++ "ssl".data) [] =
      (some closedMsg, ⟨false, [], [], false⟩, [quitCmd], []) ∧
    dispatch ⟨true, [], [], false⟩ (locateVerbL ++ "ssl".data) [] =
      (some (joinCrlf (getFilteredEntries ([] : List (List Char))
        (toLowerL (stripL "ssl".data)))), ⟨true, [], [], false⟩, [], []) :=
  c10_verb_dispatch ⟨true, [], [], false⟩ "ssl".data [] rfl rfl

end KpxcWrapper
